import Mathlib

/-!
Shallow embedding of the real-time collaboration core of the
`visual-server` repository: the Page document model (`src/models/Page.js`,
given as `src/unnamed/part_001`), the socket event handlers
(`src/socket/socketHandlers.js`), and the block-mutating REST routes
(`src/routes/pages.js`, given as `src/unnamed/part_002`).

Conventions of the embedding:
- Mongoose documents become Lean structures; only the fields read or
  written by the modelled operations are carried.
- JavaScript numbers used as versions/orders become `Int`; timestamps
  (`new Date()`) become a `Nat` parameter `now` threaded into each handler.
- `Array.prototype.slice(-10)` on an array of length `L > 10` keeps the
  last 10 elements, i.e. drops the first `L - 10`.
- The Mongo document store behind `Page.findById` / `page.save()` becomes
  an association list `PageStore`; `save` overwrites the entry in place.
- `socket.emit(evt, …)` and `socket.to(room).emit(evt, …)` become `Emit`
  records (event name plus target); payload objects are forwarded opaquely
  by the code and are not modelled.
- Handlers are pure functions from the pre-state to the post-state plus
  the list of emitted events, in the order the code emits them.
-/

/-- The collaborator role enumeration of `pageSchema.collaborators.role`. -/
inductive Role where
  | viewer
  | editor
  | admin
deriving DecidableEq, Repr

/-- The `roleHierarchy = { viewer: 1, editor: 2, admin: 3 }` table inside
`pageSchema.methods.hasAccess`. -/
def roleRank : Role → Nat
  | .viewer => 1
  | .editor => 2
  | .admin => 3

/-- The block `type` enum of `blockSchema.type`. -/
inductive BlockType where
  | text
  | image
  | button
  | container
  | form
  | divider
  | card
  | list
deriving DecidableEq, Repr

/-- A content block (`blockSchema`). `content` and `styles` are opaque
maps (`Schema.Types.Mixed`), modelled as association lists. -/
structure Block where
  id : String
  btype : BlockType
  content : List (String × String)
  styles : List (String × String)
  children : List String
  parent : Option String
  order : Int
deriving DecidableEq, Repr

/-- A collaborator entry (`pageSchema.collaborators`): user reference plus
role. -/
structure Collaborator where
  user : String
  role : Role
deriving DecidableEq, Repr

/-- A history entry (`pageSchema.history`): snapshot of the pre-mutation
version and block list, with timestamp, author and description. -/
structure HistoryEntry where
  version : Int
  blocks : List Block
  updatedAt : Nat
  updatedBy : String
  changeDescription : String
deriving DecidableEq, Repr

/-- A page document (`pageSchema`), restricted to the fields the
collaboration core reads or writes. `settings` is the settings object,
modelled as an association list so that the spread-merge
`{ ...page.settings, ...settings }` is expressible. -/
structure Page where
  title : String
  blocks : List Block
  owner : String
  collaborators : List Collaborator
  version : Int
  history : List HistoryEntry
  settings : List (String × String)
deriving DecidableEq, Repr

/-- `pageSchema.methods.hasAccess(userId, requiredRole = 'viewer')`:
owner always passes; otherwise the first collaborator entry for `userId`
decides by rank comparison, and absence means refusal. A pure function of
its arguments, mirroring the side-effect-free method body. -/
def hasAccess (page : Page) (userId : String) (requiredRole : Role := .viewer) : Bool :=
  if page.owner == userId then true
  else
    match page.collaborators.find? (fun c => c.user == userId) with
    | none => false
    | some c => roleRank c.role ≥ roleRank requiredRole

/-! ## Connection, store and emission model -/

/-- The user summary attached to a socket (`socket.user`): `_id`, `name`,
`avatar` as read by the handlers' payloads. -/
structure UserInfo where
  uid : String
  name : String
  avatar : String
deriving DecidableEq, Repr

/-- Per-connection state: `socket.userId`, `socket.user`, the set of page
rooms the socket is joined to (`socket.join` / `socket.leave`), and
`socket.currentPageId`. -/
structure ConnState where
  userId : String
  user : UserInfo
  rooms : List String
  currentPageId : Option String
deriving DecidableEq, Repr

/-- Where an emission goes: `socket.emit` reaches the sender only;
`socket.to(room).emit` reaches every member of `room` except the
sender. -/
inductive Target where
  | toSender
  | toRoom (room : String)
deriving DecidableEq, Repr

/-- One emission: target plus event name. The payload objects are
forwarded opaquely by the code and are not modelled. -/
structure Emit where
  target : Target
  event : String
deriving DecidableEq, Repr

/-- The `socket.emit('error', …)` emission shared by all failure paths. -/
def errorEmit : Emit := ⟨.toSender, "error"⟩

/-- The document store behind `Page.findById` / `page.save()`, as an
association list from page id to document. -/
abbrev PageStore := List (String × Page)

/-- `Page.findById(pid)`. -/
def findPage (ps : PageStore) (pid : String) : Option Page :=
  (ps.find? (fun kv => kv.1 == pid)).map (·.2)

/-- `page.save()`: overwrite the stored document with id `pid`. -/
def savePage (ps : PageStore) (pid : String) (p : Page) : PageStore :=
  ps.map (fun kv => if kv.1 == pid then (pid, p) else kv)

/-! ## Mutating handlers -/

/-- The shared history cap: after a push,
`if (page.history.length > 10) page.history = page.history.slice(-10)`.
`slice(-10)` keeps the last 10 entries, dropping the oldest. -/
def capHistory (h : List HistoryEntry) : List HistoryEntry :=
  if h.length > 10 then h.drop (h.length - 10) else h

/-- The template suffix `${blockId ? ` ${blockId}` : ''}` of the
`update-blocks` change description; an empty `blockId` string is falsy in
JavaScript and yields no suffix. -/
def blockSuffix : Option String → String
  | some b => if b == "" then "" else " " ++ b
  | none => ""

/-- Payload of the `update-blocks` socket event. -/
structure UpdateBlocksData where
  pageId : String
  blocks : List Block
  changeType : String
  blockId : Option String
deriving DecidableEq, Repr

/-- The `update-blocks` socket handler: missing page or failed editor
check emits `error` to the sender and changes nothing; otherwise push a
pre-mutation history entry, cap the history at 10, replace the blocks,
increment the version by 1, save, and broadcast `blocks-updated` to the
page's room. -/
def updateBlocksHandler (ps : PageStore) (c : ConnState)
    (d : UpdateBlocksData) (now : Nat) : PageStore × List Emit :=
  match findPage ps d.pageId with
  | none => (ps, [errorEmit])
  | some page =>
    if hasAccess page c.userId .editor then
      let entry : HistoryEntry :=
        { version := page.version, blocks := page.blocks,
          updatedAt := now, updatedBy := c.userId,
          changeDescription :=
            d.changeType ++ " block" ++ blockSuffix d.blockId }
      let page' : Page :=
        { page with history := capHistory (page.history ++ [entry]),
                    blocks := d.blocks, version := page.version + 1 }
      (savePage ps d.pageId page', [⟨.toRoom d.pageId, "blocks-updated"⟩])
    else (ps, [errorEmit])

/-- Payload of the `update-page-settings` socket event. -/
structure UpdateSettingsData where
  pageId : String
  settings : List (String × String)
deriving DecidableEq, Repr

/-- JavaScript object spread `{ ...old, ...new }`: keys of `old` keep
their position with values overridden by `new` where present; keys only
in `new` are appended in order. -/
def spreadMerge (old new : List (String × String)) :
    List (String × String) :=
  old.map (fun p =>
    match new.find? (fun q => q.1 == p.1) with
    | some q => (p.1, q.2)
    | none => p)
  ++ new.filter (fun q => ¬ old.any (fun p => p.1 == q.1))

/-- The `update-page-settings` socket handler: after the editor check it
spread-merges the incoming settings into `page.settings`, saves, and
broadcasts `page-settings-updated`. It touches neither `history` nor
`version`. -/
def updatePageSettingsHandler (ps : PageStore) (c : ConnState)
    (d : UpdateSettingsData) : PageStore × List Emit :=
  match findPage ps d.pageId with
  | none => (ps, [errorEmit])
  | some page =>
    if hasAccess page c.userId .editor then
      let page' : Page :=
        { page with settings := spreadMerge page.settings d.settings }
      (savePage ps d.pageId page',
       [⟨.toRoom d.pageId, "page-settings-updated"⟩])
    else (ps, [errorEmit])

/-- Payload of the `update-page-title` socket event. -/
structure UpdateTitleData where
  pageId : String
  title : String
deriving DecidableEq, Repr

/-- The `update-page-title` socket handler: after the editor check it
overwrites `page.title`, saves, and broadcasts `page-title-updated`. It
touches neither `history` nor `version`. -/
def updatePageTitleHandler (ps : PageStore) (c : ConnState)
    (d : UpdateTitleData) : PageStore × List Emit :=
  match findPage ps d.pageId with
  | none => (ps, [errorEmit])
  | some page =>
    if hasAccess page c.userId .editor then
      let page' : Page := { page with title := d.title }
      (savePage ps d.pageId page',
       [⟨.toRoom d.pageId, "page-title-updated"⟩])
    else (ps, [errorEmit])

/-- Payload of the `undo-redo` socket event. -/
structure UndoRedoData where
  pageId : String
  action : String
  version : Option Int
deriving DecidableEq, Repr

/-- Target-version computation of the `undo-redo` handler:
`undo ↦ version − 1`, `redo ↦ version + 1`, otherwise the explicit
`version` field (which may be absent, leaving the target undefined). -/
def computeTarget (page : Page) (d : UndoRedoData) : Option Int :=
  if d.action == "undo" then some (page.version - 1)
  else if d.action == "redo" then some (page.version + 1)
  else d.version

/-- The `undo-redo` socket handler: after the editor check, compute the
target version and look it up in `page.history` (an undefined target
matches no entry's numeric version). A miss does nothing — no save, no
emission. A hit overwrites `blocks` with the snapshot, sets
`version := target` without touching `history`, saves, and broadcasts
`history-navigated`. -/
def undoRedoHandler (ps : PageStore) (c : ConnState)
    (d : UndoRedoData) : PageStore × List Emit :=
  match findPage ps d.pageId with
  | none => (ps, [errorEmit])
  | some page =>
    if hasAccess page c.userId .editor then
      match computeTarget page d with
      | none => (ps, [])
      | some t =>
        match page.history.find? (fun h => h.version == t) with
        | none => (ps, [])
        | some e =>
          let page' : Page := { page with blocks := e.blocks, version := t }
          (savePage ps d.pageId page',
           [⟨.toRoom d.pageId, "history-navigated"⟩])
    else (ps, [errorEmit])

/-! ## Block-mutating REST routes (src/routes/pages.js) -/

/-- `PUT /api/pages/:id/blocks`: same push/cap/replace/increment sequence
as the socket `update-blocks` handler, with the fixed description
`'Blocks updated'`. The response is reduced to its HTTP status code. -/
def putBlocksRoute (ps : PageStore) (userId id : String)
    (blocks : List Block) (now : Nat) : PageStore × Nat :=
  match findPage ps id with
  | none => (ps, 404)
  | some page =>
    if hasAccess page userId .editor then
      let entry : HistoryEntry :=
        { version := page.version, blocks := page.blocks,
          updatedAt := now, updatedBy := userId,
          changeDescription := "Blocks updated" }
      let page' : Page :=
        { page with history := capHistory (page.history ++ [entry]),
                    blocks := blocks, version := page.version + 1 }
      (savePage ps id page', 200)
    else (ps, 403)

/-- Body of `PUT /api/pages/:id`, restricted to the updatable fields that
exist on the modelled `Page` (the schema's `description`, `category`,
`tags`, `isPublished` are not read by any modelled operation). `none`
means the field is absent from the request. -/
structure UpdatePageBody where
  title : Option String
  blocks : Option (List Block)
  settings : Option (List (String × String))
deriving DecidableEq, Repr

/-- `PUT /api/pages/:id`: when the body carries `blocks`, push a
pre-mutation history entry, cap at 10 and increment `version`; then
`Object.assign(page, req.body)` overwrites exactly the fields present in
the body. -/
def putPageRoute (ps : PageStore) (userId id : String)
    (body : UpdatePageBody) (now : Nat) : PageStore × Nat :=
  match findPage ps id with
  | none => (ps, 404)
  | some page =>
    if hasAccess page userId .editor then
      let withHist : Page :=
        match body.blocks with
        | some _ =>
          { page with
              history := capHistory (page.history ++
                [{ version := page.version, blocks := page.blocks,
                   updatedAt := now, updatedBy := userId,
                   changeDescription := "Blocks updated" }]),
              version := page.version + 1 }
        | none => page
      let page' : Page :=
        { withHist with
            title := body.title.getD withHist.title,
            blocks := body.blocks.getD withHist.blocks,
            settings := body.settings.getD withHist.settings }
      (savePage ps id page', 200)
    else (ps, 403)

/-! ## Ephemeral handlers -/

/-- The `cursor-move` handler: guarded by `if (socket.currentPageId)`, it
only forwards the payload to the current room; its body performs no state
write at all, so the embedding returns only the emissions. -/
def cursorMoveHandler (c : ConnState) : List Emit :=
  match c.currentPageId with
  | some pid => [⟨.toRoom pid, "user-cursor"⟩]
  | none => []

/-- The `block-select` handler, guarded by `if (socket.currentPageId)`;
no state write. -/
def blockSelectHandler (c : ConnState) : List Emit :=
  match c.currentPageId with
  | some pid => [⟨.toRoom pid, "block-selected"⟩]
  | none => []

/-- The `typing-start` handler, guarded by `if (socket.currentPageId)`;
no state write. -/
def typingStartHandler (c : ConnState) : List Emit :=
  match c.currentPageId with
  | some pid => [⟨.toRoom pid, "user-typing"⟩]
  | none => []

/-- The `typing-stop` handler, guarded by `if (socket.currentPageId)`;
no state write. -/
def typingStopHandler (c : ConnState) : List Emit :=
  match c.currentPageId with
  | some pid => [⟨.toRoom pid, "user-typing"⟩]
  | none => []

/-! ## Presence registry (module-level `activeUsers` map) -/

/-- One entry of the per-page user map built by `addUserToPage`:
`{ _id, name, avatar, joinedAt }`. -/
structure PresenceEntry where
  uid : String
  name : String
  avatar : String
  joinedAt : Nat
deriving DecidableEq, Repr

/-- The module-level `activeUsers : Map pageId → Map userId → entry`,
as nested association lists in insertion order (JavaScript `Map`
iteration order). -/
abbrev Registry := List (String × List (String × PresenceEntry))

/-- JavaScript `Map.prototype.set`: overwrite in place if the key exists,
else append. -/
def setAssoc {α : Type} (m : List (String × α)) (k : String) (v : α) :
    List (String × α) :=
  if m.any (fun kv => kv.1 == k) then
    m.map (fun kv => if kv.1 == k then (k, v) else kv)
  else m ++ [(k, v)]

/-- `activeUsers.get(pid)` (`none` when `has` is false). -/
def regFind (r : Registry) (pid : String) :
    Option (List (String × PresenceEntry)) :=
  (r.find? (fun kv => kv.1 == pid)).map (·.2)

/-- `addUserToPage(pageId, userId, user)`: create the per-page map if
absent, then insert/overwrite the user's entry with the current
timestamp. -/
def addUserToPage (r : Registry) (pid uid : String) (u : UserInfo)
    (now : Nat) : Registry :=
  let m := (regFind r pid).getD []
  setAssoc r pid (setAssoc m uid ⟨u.uid, u.name, u.avatar, now⟩)

/-- `removeUserFromPage(pageId, userId)`: delete the user's entry; if the
per-page map becomes empty, delete the map itself. -/
def removeUserFromPage (r : Registry) (pid uid : String) : Registry :=
  match regFind r pid with
  | none => r
  | some m =>
    let m' := m.filter (fun kv => !(kv.1 == uid))
    if m'.length = 0 then r.filter (fun kv => !(kv.1 == pid))
    else setAssoc r pid m'

/-- `getActiveUsersForPage(pageId)`: the entries of the per-page map, or
`[]` when the page has no map. -/
def getActiveUsersForPage (r : Registry) (pid : String) :
    List PresenceEntry :=
  ((regFind r pid).getD []).map (·.2)

/-- Whether `uid` is counted in the presence list of `pid`. -/
def memPres (r : Registry) (pid uid : String) : Bool :=
  ((regFind r pid).getD []).any (fun kv => kv.1 == uid)

/-! ## Room session: join-page, disconnect -/

/-- Combined in-memory state touched by the room-session code: the
connection plus the presence registry. -/
structure LiveState where
  conn : ConnState
  reg : Registry
deriving DecidableEq, Repr

/-- The primitive steps the `join-page` success path performs, in
program order; modelling them individually exposes every intermediate
state of the switch. -/
inductive JAct where
  | leaveRoom (pid : String)
  | presenceRemove (pid uid : String)
  | joinRoom (pid : String)
  | setCurrent (pid : String)
  | presenceAdd (pid uid : String) (u : UserInfo) (now : Nat)
  | emitEvt (e : Emit)
deriving DecidableEq, Repr

/-- Effect of one primitive step. `socket.leave` removes the room from
the socket's membership; `socket.join` adds it (set semantics). -/
def stepAct (s : LiveState × List Emit) (a : JAct) : LiveState × List Emit :=
  match a with
  | .leaveRoom pid =>
    ({ s.1 with conn := { s.1.conn with
        rooms := s.1.conn.rooms.filter (fun r => !(r == pid)) } }, s.2)
  | .presenceRemove pid uid =>
    ({ s.1 with reg := removeUserFromPage s.1.reg pid uid }, s.2)
  | .joinRoom pid =>
    ({ s.1 with conn := { s.1.conn with
        rooms := if s.1.conn.rooms.contains pid then s.1.conn.rooms
                 else s.1.conn.rooms ++ [pid] } }, s.2)
  | .setCurrent pid =>
    ({ s.1 with conn := { s.1.conn with currentPageId := some pid } }, s.2)
  | .presenceAdd pid uid u now =>
    ({ s.1 with reg := addUserToPage s.1.reg pid uid u now }, s.2)
  | .emitEvt e => (s.1, s.2 ++ [e])

/-- The success path of the `join-page` handler, statement by statement:
leave the previous room and drop its presence entry when bound, then
join the new room, record it as current, add presence, notify the room
(`user-joined`), and send the presence snapshot to the joiner
(`active-users`). No departure notice is emitted on this path. -/
def joinPageScript (cur : Option String) (pageId uid : String)
    (u : UserInfo) (now : Nat) : List JAct :=
  (match cur with
   | some old => [.leaveRoom old, .presenceRemove old uid]
   | none => []) ++
  [.joinRoom pageId, .setCurrent pageId, .presenceAdd pageId uid u now,
   .emitEvt ⟨.toRoom pageId, "user-joined"⟩,
   .emitEvt ⟨.toSender, "active-users"⟩]

/-- Run a step list from a state with no emissions yet. -/
def runScript (s : LiveState) (acts : List JAct) : LiveState × List Emit :=
  acts.foldl stepAct (s, [])

/-- The `join-page` handler: missing page or failed viewer check emits
`error` to the sender; otherwise the success script runs. -/
def joinPageHandler (ps : PageStore) (s : LiveState) (pageId : String)
    (now : Nat) : LiveState × List Emit :=
  match findPage ps pageId with
  | none => (s, [errorEmit])
  | some page =>
    if hasAccess page s.conn.userId .viewer then
      runScript s
        (joinPageScript s.conn.currentPageId pageId s.conn.userId
          s.conn.user now)
    else (s, [errorEmit])

/-- The `disconnect` handler: when bound, remove the presence entry and
notify the room with `user-left`. -/
def disconnectHandler (s : LiveState) : LiveState × List Emit :=
  match s.conn.currentPageId with
  | some pid =>
    ({ s with reg := removeUserFromPage s.reg pid s.conn.userId },
     [⟨.toRoom pid, "user-left"⟩])
  | none => (s, [])

/-! ## Mutation sequences over the document store -/

/-- One accepted-or-rejected mutating request against the store: any of
the four mutating socket events or the two block-mutating REST routes,
with arbitrary sender and payload. -/
inductive MutOp where
  | socketBlocks (c : ConnState) (d : UpdateBlocksData) (now : Nat)
  | socketSettings (c : ConnState) (d : UpdateSettingsData)
  | socketTitle (c : ConnState) (d : UpdateTitleData)
  | socketUndoRedo (c : ConnState) (d : UndoRedoData)
  | restBlocks (userId id : String) (blocks : List Block) (now : Nat)
  | restPage (userId id : String) (body : UpdatePageBody) (now : Nat)
deriving Repr

/-- Effect of one mutating request on the document store. -/
def applyMutOp (ps : PageStore) : MutOp → PageStore
  | .socketBlocks c d now => (updateBlocksHandler ps c d now).1
  | .socketSettings c d => (updatePageSettingsHandler ps c d).1
  | .socketTitle c d => (updatePageTitleHandler ps c d).1
  | .socketUndoRedo c d => (undoRedoHandler ps c d).1
  | .restBlocks u i b now => (putBlocksRoute ps u i b now).1
  | .restPage u i b now => (putPageRoute ps u i b now).1

/-- Effect of a finite request sequence on the document store. -/
def applyMutOps (ps : PageStore) (ops : List MutOp) : PageStore :=
  ops.foldl applyMutOp ps

/-- The history-bound invariant: every stored document keeps at most 10
history entries. -/
def histBounded (ps : PageStore) : Prop :=
  ∀ kv ∈ ps, (Prod.snd kv).history.length ≤ 10

instance (ps : PageStore) : Decidable (histBounded ps) :=
  List.decidableBAll _ ps

/-! ## Concrete sample data for witnesses and counterexamples -/

/-- A concrete text block. -/
def sampleBlock : Block :=
  { id := "b1", btype := .text, content := [], styles := [],
    children := [], parent := none, order := 0 }

/-- A second concrete text block, distinct from `sampleBlock`. -/
def sampleBlock2 : Block :=
  { id := "b2", btype := .text, content := [], styles := [],
    children := [], parent := none, order := 1 }

/-- A third concrete text block, distinct from the other two. -/
def sampleBlock3 : Block :=
  { id := "b3", btype := .text, content := [], styles := [],
    children := [], parent := none, order := 2 }

/-- Concrete user summary for the owner `"u1"`. -/
def sampleUser1 : UserInfo := { uid := "u1", name := "n1", avatar := "a1" }

/-- A connection for owner `"u1"` with current page `cur`. -/
def ownerConn (cur : Option String) : ConnState :=
  { userId := "u1", user := sampleUser1, rooms := [], currentPageId := cur }

/-- A connection for the viewer collaborator `"u2"`. -/
def viewerConn : ConnState :=
  { userId := "u2", user := { uid := "u2", name := "n2", avatar := "a2" },
    rooms := [], currentPageId := none }

/-- Concrete page at the history "tip": version 2, blocks
`[sampleBlock]`, and a single history entry for version 1 with empty
blocks — the state produced by one accepted block mutation from an empty
version-1 page. -/
def tipPage : Page :=
  { title := "t", blocks := [sampleBlock], owner := "u1",
    collaborators := [], version := 2,
    history := [{ version := 1, blocks := [], updatedAt := 0,
                  updatedBy := "u1", changeDescription := "replace block" }],
    settings := [("theme", "default")] }

/-- Concrete page in mid-history position: version 2 with snapshots
recorded for versions 1 and 2 (the state after mutating to version 3 and
undoing back to 2); the version-2 snapshot matches the current blocks. -/
def undoMidPage : Page :=
  { title := "t", blocks := [sampleBlock], owner := "u1",
    collaborators := [], version := 2,
    history := [{ version := 1, blocks := [], updatedAt := 0,
                  updatedBy := "u1", changeDescription := "replace block" },
                { version := 2, blocks := [sampleBlock], updatedAt := 1,
                  updatedBy := "u1", changeDescription := "add block" }],
    settings := [] }

/-- Concrete live state of a connection for `"u1"` bound to room `"A"`,
with a matching presence entry. -/
def switchState : LiveState :=
  { conn := { userId := "u1", user := sampleUser1, rooms := ["A"],
              currentPageId := some "A" },
    reg := [("A", [("u1", { uid := "u1", name := "n1", avatar := "a1",
                            joinedAt := 0 })])] }

/-- A concrete page owned by `"u1"` with `"u2"` as a viewer collaborator,
used by witnesses. -/
def samplePageViewer : Page :=
  { title := "t", blocks := [], owner := "u1",
    collaborators := [⟨"u2", .viewer⟩],
    version := 1, history := [], settings := [] }

/-- A concrete page owned by `"u1"` with no collaborators, used by
witnesses. -/
def samplePageOwned : Page :=
  { title := "t", blocks := [], owner := "u1", collaborators := [],
    version := 1, history := [], settings := [] }

/-- A store reached from the pristine `samplePageOwned` by five accepted
requests — mutate, mutate, undo, undo, mutate — all through the handlers
themselves. The final state carries version 2 and blocks `[sampleBlock3]`
while a stale version-2 snapshot `(2, [sampleBlock])` from the first
ascent survives in history: undo-redo never prunes entries, and a fresh
mutation after two undos reuses version number 2. -/
def staleStore : PageStore :=
  (updateBlocksHandler
    (undoRedoHandler
      (undoRedoHandler
        (updateBlocksHandler
          (updateBlocksHandler [("p", samplePageOwned)] (ownerConn none)
            ⟨"p", [sampleBlock], "replace", none⟩ 1).1
          (ownerConn none) ⟨"p", [sampleBlock2], "replace", none⟩ 2).1
        (ownerConn none) ⟨"p", "undo", none⟩).1
      (ownerConn none) ⟨"p", "undo", none⟩).1
    (ownerConn none) ⟨"p", [sampleBlock3], "replace", none⟩ 3).1

/-- The single document stored in `staleStore`, written out: current
blocks `[sampleBlock3]` at version 2, with a stale history entry
recording different blocks under the same version number 2. -/
def stalePage : Page :=
  { title := "t", blocks := [sampleBlock3], owner := "u1",
    collaborators := [], version := 2,
    history := [{ version := 1, blocks := [], updatedAt := 1,
                  updatedBy := "u1", changeDescription := "replace block" },
                { version := 2, blocks := [sampleBlock], updatedAt := 2,
                  updatedBy := "u1", changeDescription := "replace block" },
                { version := 1, blocks := [], updatedAt := 3,
                  updatedBy := "u1", changeDescription := "replace block" }],
    settings := [] }

/-- `hasAccess` only reads `owner` and `collaborators`, so it is invariant
under updates of the mutable document fields. -/
theorem hasAccess_update (p : Page) (u : String) (r : Role)
    (t : String) (b : List Block) (v : Int) (h : List HistoryEntry)
    (s : List (String × String)) :
    hasAccess { p with title := t, blocks := b, version := v,
                       history := h, settings := s } u r
      = hasAccess p u r := rfl

/-- C6: `hasAccess(document, userId, requiredRole)` returns true whenever
`userId` is the owner; returns false for a non-owner with no collaborator
entry; and for a non-owner whose (first) collaborator entry is `c`,
returns true iff `roleRank c.role ≥ roleRank requiredRole` under
viewer(1) < editor(2) < admin(3). Purity (no side effects) holds by
construction: `hasAccess` is a function of `(page, userId, requiredRole)`
alone. -/
theorem hasAccess_spec (p : Page) (u : String) (r : Role) :
    (p.owner = u → hasAccess p u r = true)
    ∧ ((p.owner ≠ u ∧ ∀ c ∈ p.collaborators, c.user ≠ u) →
        hasAccess p u r = false)
    ∧ (∀ c, p.owner ≠ u →
        p.collaborators.find? (fun c => c.user == u) = some c →
        (hasAccess p u r = true ↔ roleRank c.role ≥ roleRank r)) := by
  refine ⟨?_, ?_, ?_⟩
  · intro h
    simp [hasAccess, h]
  · rintro ⟨hne, habs⟩
    have hfind : p.collaborators.find? (fun c => c.user == u) = none := by
      rw [List.find?_eq_none]
      intro c hc
      simpa using habs c hc
    simp [hasAccess, hne, hfind]
  · intro c hne hfind
    simp [hasAccess, hne, hfind]

/-- Witness for C6 at concrete inputs: an owner passes an admin check even
with no collaborator entries; a stranger fails a viewer check; a viewer
collaborator fails an editor check. -/
theorem hasAccess_spec_witness :
    hasAccess samplePageOwned "u1" .admin = true
    ∧ hasAccess samplePageOwned "u2" .viewer = false
    ∧ hasAccess samplePageViewer "u2" .editor = false := by
  refine ⟨?_, ?_, ?_⟩
  · exact (hasAccess_spec samplePageOwned "u1" .admin).1 rfl
  · exact (hasAccess_spec samplePageOwned "u2" .viewer).2.1
      ⟨by decide, by decide⟩
  · have h := (hasAccess_spec samplePageViewer "u2" .editor).2.2
      ⟨"u2", .viewer⟩ (by decide) (by decide)
    cases hb : hasAccess samplePageViewer "u2" .editor with
    | false => rfl
    | true => exact absurd (h.mp hb) (by decide)

/-! ## Store and history helper lemmas -/

/-- Looking up the saved id after `savePage` returns the saved document,
provided the id was present. -/
theorem findPage_savePage (ps : PageStore) (pid : String) (p q : Page)
    (h : findPage ps pid = some q) :
    findPage (savePage ps pid p) pid = some p := by
  induction ps with
  | nil => simp [findPage] at h
  | cons kv tl ih =>
    by_cases hk : kv.1 = pid
    · simp [findPage, savePage, List.find?_cons, hk]
    · have hk' : (kv.1 == pid) = false := beq_eq_false_iff_ne.mpr hk
      simp only [findPage, savePage] at ih h ⊢
      simp only [List.map_cons, List.find?_cons, hk', Bool.false_eq_true,
        if_false] at h ⊢
      exact ih h

/-- Every element of `savePage ps pid p` is the saved pair or an original
element. -/
theorem mem_savePage (ps : PageStore) (pid : String) (p : Page)
    (kv : String × Page) (h : kv ∈ savePage ps pid p) :
    kv = (pid, p) ∨ kv ∈ ps := by
  unfold savePage at h
  obtain ⟨a, ha, hfa⟩ := List.mem_map.mp h
  by_cases hk : a.1 = pid
  · left
    rw [← hfa]
    simp [hk]
  · right
    have hk' : (a.1 == pid) = false := by simpa using hk
    rw [← hfa]
    simp [hk']
    exact ha

/-- A successful `findPage` exposes a store element carrying the found
document. -/
theorem findPage_some_mem (ps : PageStore) (pid : String) (p : Page)
    (h : findPage ps pid = some p) : ∃ k, (k, p) ∈ ps := by
  unfold findPage at h
  cases hf : ps.find? (fun kv => kv.1 == pid) with
  | none => rw [hf] at h; simp at h
  | some kv =>
    rw [hf] at h
    simp only [Option.map_some', Option.some_inj] at h
    refine ⟨kv.1, ?_⟩
    have hm := List.mem_of_find?_eq_some hf
    rw [← h]
    simpa using hm

/-- The capped history never exceeds 10 entries. -/
theorem capHistory_length_le (h : List HistoryEntry) :
    (capHistory h).length ≤ 10 := by
  unfold capHistory
  split
  · rename_i hgt
    simp only [List.length_drop]
    omega
  · rename_i hle
    omega

/-- Capping after a single push drops a prefix of the old history and
keeps the pushed entry last. -/
theorem capHistory_append (H : List HistoryEntry) (e : HistoryEntry) :
    ∃ k, k ≤ H.length ∧ capHistory (H ++ [e]) = H.drop k ++ [e] := by
  unfold capHistory
  split
  · rename_i hgt
    simp only [List.length_append, List.length_cons, List.length_nil] at hgt
    refine ⟨(H ++ [e]).length - 10, ?_, ?_⟩
    · simp only [List.length_append, List.length_cons, List.length_nil]
      omega
    · rw [List.drop_append_of_le_length]
      simp only [List.length_append, List.length_cons, List.length_nil]
      omega
  · exact ⟨0, Nat.zero_le _, by simp⟩

/-- C7: an `undo-redo` request whose computed target version matches no
history entry is a silent no-op: the store is unchanged and nothing at
all is emitted — no error to the sender, no broadcast. (An undefined
target — unknown action with no explicit version — is covered as
well.) -/
theorem undoRedo_silent_noop (ps : PageStore) (c : ConnState)
    (d : UndoRedoData) (page : Page)
    (hfind : findPage ps d.pageId = some page)
    (hacc : hasAccess page c.userId .editor = true)
    (hmiss : ∀ t, computeTarget page d = some t →
      page.history.find? (fun h => h.version == t) = none) :
    undoRedoHandler ps c d = (ps, []) := by
  simp only [undoRedoHandler, hfind, hacc, if_true]
  cases hct : computeTarget page d with
  | none => rfl
  | some t => simp [hmiss t hct]

/-- Witness for C7: a `redo` at the history tip (version 2, snapshots
recorded only up to version 1) computes target 3, finds no entry, and
does nothing. -/
theorem undoRedo_silent_noop_witness :
    undoRedoHandler [("p", tipPage)] (ownerConn none)
      ⟨"p", "redo", none⟩ = ([("p", tipPage)], []) := by
  apply undoRedo_silent_noop _ _ _ tipPage
  · rfl
  · rfl
  · intro t ht
    have hct : computeTarget tipPage ⟨"p", "redo", none⟩ = some 3 := rfl
    rw [hct] at ht
    injection ht with ht3
    subst ht3
    rfl

/-- C8: an `update-blocks` event from a non-owner whose collaborator
entry has role `viewer` fails the editor access check: the store is
unchanged (no blocks/version/history change), and the only emission is
an `error` event to the sending connection — no broadcast. -/
theorem viewer_updateBlocks_rejected (ps : PageStore) (c : ConnState)
    (d : UpdateBlocksData) (now : Nat) (page : Page)
    (hfind : findPage ps d.pageId = some page)
    (howner : page.owner ≠ c.userId)
    (hcol : page.collaborators.find? (fun col => col.user == c.userId)
      = some ⟨c.userId, .viewer⟩) :
    updateBlocksHandler ps c d now = (ps, [errorEmit]) := by
  have hacc : hasAccess page c.userId .editor = false := by
    unfold hasAccess
    rw [if_neg (by simpa using howner), hcol]
    rfl
  simp only [updateBlocksHandler, hfind, hacc, Bool.false_eq_true, if_false]

/-- Witness for C8: the viewer collaborator `"u2"` of `samplePageViewer`
sends `update-blocks`; the store is unchanged and only `error` goes back
to the sender. -/
theorem viewer_updateBlocks_rejected_witness :
    updateBlocksHandler [("p", samplePageViewer)] viewerConn
      ⟨"p", [sampleBlock], "replace", none⟩ 0
      = ([("p", samplePageViewer)], [errorEmit]) := by
  refine viewer_updateBlocks_rejected _ _ _ _ samplePageViewer ?_ ?_ ?_
  · rfl
  · decide
  · rfl

/-- C9: the mutating/navigation socket handlers perform no room-binding
check — each gives identical results for any `rooms` membership and any
`currentPageId` (including unbound), and an editor-access `update-blocks`
from a connection bound elsewhere still mutates the target page and
broadcasts `blocks-updated` to that page's room. -/
theorem no_room_binding_check (ps : PageStore) (uid : String)
    (u : UserInfo) (rooms rooms' : List String) (cur cur' : Option String)
    (db : UpdateBlocksData) (ds : UpdateSettingsData) (dt : UpdateTitleData)
    (du : UndoRedoData) (now : Nat) :
    (updateBlocksHandler ps ⟨uid, u, rooms, cur⟩ db now
      = updateBlocksHandler ps ⟨uid, u, rooms', cur'⟩ db now)
    ∧ (updatePageSettingsHandler ps ⟨uid, u, rooms, cur⟩ ds
      = updatePageSettingsHandler ps ⟨uid, u, rooms', cur'⟩ ds)
    ∧ (updatePageTitleHandler ps ⟨uid, u, rooms, cur⟩ dt
      = updatePageTitleHandler ps ⟨uid, u, rooms', cur'⟩ dt)
    ∧ (undoRedoHandler ps ⟨uid, u, rooms, cur⟩ du
      = undoRedoHandler ps ⟨uid, u, rooms', cur'⟩ du)
    ∧ (∀ page, findPage ps db.pageId = some page →
        hasAccess page uid .editor = true →
        (updateBlocksHandler ps ⟨uid, u, rooms, cur⟩ db now).2
          = [⟨.toRoom db.pageId, "blocks-updated"⟩]
        ∧ ∃ p', findPage
              (updateBlocksHandler ps ⟨uid, u, rooms, cur⟩ db now).1
              db.pageId = some p'
            ∧ p'.version = page.version + 1 ∧ p'.blocks = db.blocks) := by
  refine ⟨rfl, rfl, rfl, rfl, ?_⟩
  intro page hfind hacc
  refine ⟨?_, ?_⟩
  · simp [updateBlocksHandler, hfind, hacc]
  · simp only [updateBlocksHandler, hfind, hacc, if_true]
    exact ⟨_, findPage_savePage _ _ _ _ hfind, rfl, rfl⟩

/-- Witness for C9: owner `"u1"` is bound to room `"q"` but mutates page
`"p"`; the mutation lands on `"p"` and the broadcast targets room
`"p"`. -/
theorem no_room_binding_check_witness :
    (updateBlocksHandler [("p", samplePageOwned)]
        ⟨"u1", sampleUser1, ["q"], some "q"⟩
        ⟨"p", [sampleBlock], "replace", none⟩ 0).2
      = [⟨.toRoom "p", "blocks-updated"⟩]
    ∧ ∃ p', findPage (updateBlocksHandler [("p", samplePageOwned)]
          ⟨"u1", sampleUser1, ["q"], some "q"⟩
          ⟨"p", [sampleBlock], "replace", none⟩ 0).1 "p" = some p'
        ∧ p'.version = samplePageOwned.version + 1
        ∧ p'.blocks = [sampleBlock] :=
  (no_room_binding_check [("p", samplePageOwned)] "u1" sampleUser1
    ["q"] [] (some "q") none ⟨"p", [sampleBlock], "replace", none⟩
    ⟨"p", []⟩ ⟨"p", "t"⟩ ⟨"p", "undo", none⟩ 0).2.2.2.2
    samplePageOwned rfl rfl

/-- C10: every ephemeral event received from an unbound connection is
silently dropped: no broadcast, no error to the sender; the handler
bodies contain no state write, so no state changes by construction. -/
theorem ephemeral_unbound_dropped (c : ConnState)
    (h : c.currentPageId = none) :
    cursorMoveHandler c = [] ∧ blockSelectHandler c = []
    ∧ typingStartHandler c = [] ∧ typingStopHandler c = [] := by
  unfold cursorMoveHandler blockSelectHandler typingStartHandler
    typingStopHandler
  rw [h]
  exact ⟨rfl, rfl, rfl, rfl⟩

/-- Witness for C10 at the concrete unbound connection `viewerConn`. -/
theorem ephemeral_unbound_dropped_witness :
    cursorMoveHandler viewerConn = []
    ∧ blockSelectHandler viewerConn = []
    ∧ typingStartHandler viewerConn = []
    ∧ typingStopHandler viewerConn = [] :=
  ephemeral_unbound_dropped viewerConn rfl

/-- Capping after a single push keeps the pushed entry as the last
element. -/
theorem capHistory_getLast (H : List HistoryEntry) (e : HistoryEntry) :
    (capHistory (H ++ [e])).getLast? = some e := by
  obtain ⟨k, hk, heq⟩ := capHistory_append H e
  rw [heq, List.getLast?_concat]

/-- C1 counterexample: on the concrete accepted `update-page-settings`
mutation below, the handler broadcasts (the mutation is accepted) yet
leaves `version` at 2 (the claim demands 3) and leaves `history`
untouched (the claim demands an appended entry). -/
theorem settings_no_history_cex :
    updatePageSettingsHandler [("p", tipPage)] (ownerConn none)
      ⟨"p", [("x", "y")]⟩
      = ([("p", { tipPage with
            settings := spreadMerge tipPage.settings [("x", "y")] })],
         [⟨.toRoom "p", "page-settings-updated"⟩])
    ∧ tipPage.version = 2
    ∧ ({ tipPage with
          settings := spreadMerge tipPage.settings [("x", "y")] } : Page).version
        = 2
    ∧ ({ tipPage with
          settings := spreadMerge tipPage.settings [("x", "y")] } : Page).history
        = tipPage.history := by
  refine ⟨?_, rfl, rfl, rfl⟩
  rfl

/-- C1 amended: among the accepted mutating socket events, only
`update-blocks` appends a history entry (with the mutation-specific
description capturing the pre-mutation blocks and version) and
increments `version` by exactly 1; accepted `update-page-settings` and
`update-page-title` mutations leave both `version` and `history`
unchanged. -/
theorem mutation_history_version_amended (ps : PageStore) (c : ConnState)
    (db : UpdateBlocksData) (ds : UpdateSettingsData) (dt : UpdateTitleData)
    (now : Nat) (pb pss pt : Page)
    (hfb : findPage ps db.pageId = some pb)
    (hab : hasAccess pb c.userId .editor = true)
    (hfs : findPage ps ds.pageId = some pss)
    (hatts : hasAccess pss c.userId .editor = true)
    (hft : findPage ps dt.pageId = some pt)
    (hat : hasAccess pt c.userId .editor = true) :
    (∃ p', findPage (updateBlocksHandler ps c db now).1 db.pageId = some p'
      ∧ p'.version = pb.version + 1
      ∧ p'.history.getLast? = some
          { version := pb.version, blocks := pb.blocks, updatedAt := now,
            updatedBy := c.userId,
            changeDescription :=
              db.changeType ++ " block" ++ blockSuffix db.blockId })
    ∧ (∃ p', findPage (updatePageSettingsHandler ps c ds).1 ds.pageId
          = some p'
      ∧ p'.version = pss.version ∧ p'.history = pss.history)
    ∧ (∃ p', findPage (updatePageTitleHandler ps c dt).1 dt.pageId = some p'
      ∧ p'.version = pt.version ∧ p'.history = pt.history) := by
  refine ⟨?_, ?_, ?_⟩
  · simp only [updateBlocksHandler, hfb, hab, if_true]
    exact ⟨_, findPage_savePage _ _ _ _ hfb, rfl, capHistory_getLast _ _⟩
  · simp only [updatePageSettingsHandler, hfs, hatts, if_true]
    exact ⟨_, findPage_savePage _ _ _ _ hfs, rfl, rfl⟩
  · simp only [updatePageTitleHandler, hft, hat, if_true]
    exact ⟨_, findPage_savePage _ _ _ _ hft, rfl, rfl⟩

/-- Witness for the amended C1 at concrete inputs on `tipPage`. -/
theorem mutation_history_version_amended_witness :
    (∃ p', findPage (updateBlocksHandler [("p", tipPage)] (ownerConn none)
          ⟨"p", [sampleBlock2], "replace", some "b2"⟩ 7).1 "p" = some p'
      ∧ p'.version = tipPage.version + 1
      ∧ p'.history.getLast? = some
          { version := tipPage.version, blocks := tipPage.blocks,
            updatedAt := 7, updatedBy := "u1",
            changeDescription :=
              "replace" ++ " block" ++ blockSuffix (some "b2") })
    ∧ (∃ p', findPage (updatePageSettingsHandler [("p", tipPage)]
          (ownerConn none) ⟨"p", [("x", "y")]⟩).1 "p" = some p'
      ∧ p'.version = tipPage.version ∧ p'.history = tipPage.history)
    ∧ (∃ p', findPage (updatePageTitleHandler [("p", tipPage)]
          (ownerConn none) ⟨"p", "t2"⟩).1 "p" = some p'
      ∧ p'.version = tipPage.version ∧ p'.history = tipPage.history) :=
  mutation_history_version_amended [("p", tipPage)] (ownerConn none)
    ⟨"p", [sampleBlock2], "replace", some "b2"⟩ ⟨"p", [("x", "y")]⟩
    ⟨"p", "t2"⟩ 7 tipPage tipPage tipPage rfl rfl rfl rfl rfl rfl

/-- `savePage` preserves the history bound when the saved document obeys
it. -/
theorem histBounded_savePage (ps : PageStore) (pid : String) (p : Page)
    (hps : histBounded ps) (hp : p.history.length ≤ 10) :
    histBounded (savePage ps pid p) := by
  intro kv hkv
  rcases mem_savePage ps pid p kv hkv with h | h
  · rw [h]
    exact hp
  · exact hps kv h

/-- A document found in a bounded store obeys the bound. -/
theorem histBounded_findPage (ps : PageStore) (pid : String) (p : Page)
    (hps : histBounded ps) (h : findPage ps pid = some p) :
    p.history.length ≤ 10 := by
  obtain ⟨k, hk⟩ := findPage_some_mem ps pid p h
  exact hps (k, p) hk

/-- Every single mutating request preserves the history bound. -/
theorem histBounded_applyMutOp (ps : PageStore) (op : MutOp)
    (h : histBounded ps) : histBounded (applyMutOp ps op) := by
  cases op with
  | socketBlocks c d now =>
    simp only [applyMutOp]
    unfold updateBlocksHandler
    split
    · exact h
    · split
      · exact histBounded_savePage _ _ _ h (capHistory_length_le _)
      · exact h
  | socketSettings c d =>
    simp only [applyMutOp]
    unfold updatePageSettingsHandler
    split
    · exact h
    · rename_i page heq
      split
      · exact histBounded_savePage _ _ _ h
          (histBounded_findPage ps d.pageId page h heq)
      · exact h
  | socketTitle c d =>
    simp only [applyMutOp]
    unfold updatePageTitleHandler
    split
    · exact h
    · rename_i page heq
      split
      · exact histBounded_savePage _ _ _ h
          (histBounded_findPage ps d.pageId page h heq)
      · exact h
  | socketUndoRedo c d =>
    simp only [applyMutOp]
    unfold undoRedoHandler
    split
    · exact h
    · rename_i page heq
      split
      · split
        · exact h
        · split
          · exact h
          · exact histBounded_savePage _ _ _ h
              (histBounded_findPage ps d.pageId page h heq)
      · exact h
  | restBlocks u i b now =>
    simp only [applyMutOp]
    unfold putBlocksRoute
    split
    · exact h
    · split
      · exact histBounded_savePage _ _ _ h (capHistory_length_le _)
      · exact h
  | restPage u i body now =>
    simp only [applyMutOp]
    unfold putPageRoute
    split
    · exact h
    · rename_i page heq
      split
      · split
        · exact histBounded_savePage _ _ _ h (capHistory_length_le _)
        · exact histBounded_savePage _ _ _ h
            (histBounded_findPage ps i page h heq)
      · exact h

/-- C2: after any finite sequence of mutating requests, every document's
history stays at 10 entries or fewer; and when an `update-blocks` push
lands on a full (10-entry) history, exactly the oldest entry is evicted
(FIFO) while the new pre-mutation snapshot is appended at the end. -/
theorem history_bounded_fifo (ps : PageStore) (ops : List MutOp)
    (h0 : histBounded ps) :
    histBounded (applyMutOps ps ops)
    ∧ (∀ (c : ConnState) (d : UpdateBlocksData) (now : Nat) (page : Page),
        findPage ps d.pageId = some page →
        hasAccess page c.userId .editor = true →
        page.history.length = 10 →
        ∃ p', findPage (updateBlocksHandler ps c d now).1 d.pageId = some p'
          ∧ p'.history = page.history.drop 1 ++
              [{ version := page.version, blocks := page.blocks,
                 updatedAt := now, updatedBy := c.userId,
                 changeDescription :=
                   d.changeType ++ " block" ++ blockSuffix d.blockId }]) := by
  constructor
  · unfold applyMutOps
    induction ops generalizing ps with
    | nil => exact h0
    | cons op tl ih => exact ih _ (histBounded_applyMutOp _ _ h0)
  · intro c d now page hf ha hlen
    simp only [updateBlocksHandler, hf, ha, if_true]
    refine ⟨_, findPage_savePage _ _ _ _ hf, ?_⟩
    show capHistory _ = _
    unfold capHistory
    rw [if_pos (by simp [hlen])]
    rw [List.drop_append_of_le_length (by simp [hlen])]
    congr 2
    simp [hlen]

/-- Witness for C2: a concrete store satisfying the bound, a concrete
two-request sequence, and the resulting bounded store; plus the FIFO
eviction on a concrete full-history page. -/
theorem history_bounded_fifo_witness :
    histBounded (applyMutOps [("p", tipPage)]
      [MutOp.socketBlocks (ownerConn none)
          ⟨"p", [sampleBlock2], "replace", none⟩ 1,
       MutOp.socketSettings (ownerConn none) ⟨"p", [("x", "y")]⟩]) :=
  (history_bounded_fifo [("p", tipPage)] _ (by decide)).1

/-- If some history entry carries version `t` and every such entry
carries blocks `B`, then the handler's `find?` lookup succeeds and yields
an entry with blocks `B`. -/
theorem find?_version_blocks (l : List HistoryEntry) (t : Int)
    (B : List Block)
    (hex : ∃ e ∈ l, e.version = t)
    (hall : ∀ e ∈ l, e.version = t → e.blocks = B) :
    ∃ e, l.find? (fun h => h.version == t) = some e
      ∧ e.blocks = B ∧ e.version = t := by
  have hsome : (l.find? (fun h => h.version == t)).isSome := by
    rw [List.find?_isSome]
    obtain ⟨e, he, hv⟩ := hex
    exact ⟨e, he, by simpa using hv⟩
  obtain ⟨e, he⟩ := Option.isSome_iff_exists.mp hsome
  have hv : e.version = t := by simpa using List.find?_some he
  exact ⟨e, he, hall e (List.mem_of_find?_eq_some he) hv, hv⟩

/-- C3 counterexample: `staleStore` is reachable from a pristine page by
five accepted requests and equals `[("p", stalePage)]` — version 2,
blocks `[sampleBlock3]`, stale snapshot `(2, [sampleBlock])` in history.
A further accepted `update-blocks` (it broadcasts) followed by an
immediate undo yields blocks `[sampleBlock]`, not the pre-mutation
`[sampleBlock3]`: the undo's first-match lookup on version 2 hits the
stale snapshot, refuting the claim at a reachable state. -/
theorem undo_after_updateBlocks_cex :
    staleStore = [("p", stalePage)]
    ∧ (updateBlocksHandler staleStore (ownerConn none)
        ⟨"p", [sampleBlock2], "replace", none⟩ 4).2
      = [⟨.toRoom "p", "blocks-updated"⟩]
    ∧ (findPage (undoRedoHandler
        (updateBlocksHandler staleStore (ownerConn none)
          ⟨"p", [sampleBlock2], "replace", none⟩ 4).1
        (ownerConn none) ⟨"p", "undo", none⟩).1 "p").map Page.blocks
      = some [sampleBlock]
    ∧ stalePage.blocks = [sampleBlock3]
    ∧ [sampleBlock] ≠ [sampleBlock3] := by
  exact ⟨by decide, by decide, by decide, by decide, by decide⟩

/-- C3 amended: an `undo` immediately after an accepted `update-blocks`
(no intervening mutation) sets `version` back to the pre-mutation version
and appends no history entry (the history after undo equals the history
after the mutation), and it restores the pre-mutation block set provided
every retained history entry recorded under the pre-mutation version
number carries the pre-mutation blocks (hypothesis `hinv`). The proviso
is not vacuous and not implied by reachability: linear history reuses
version numbers after undo while stale snapshots persist, and the first
matching entry wins, so without `hinv` the undo can restore a stale
snapshot instead. -/
theorem undo_after_updateBlocks (ps : PageStore) (c : ConnState)
    (d : UpdateBlocksData) (now : Nat) (P : Page)
    (hfind : findPage ps d.pageId = some P)
    (hacc : hasAccess P c.userId .editor = true)
    (hinv : ∀ e ∈ P.history, e.version = P.version → e.blocks = P.blocks) :
    ∃ P1 P2,
      findPage (updateBlocksHandler ps c d now).1 d.pageId = some P1
      ∧ findPage (undoRedoHandler (updateBlocksHandler ps c d now).1 c
          ⟨d.pageId, "undo", none⟩).1 d.pageId = some P2
      ∧ P2.blocks = P.blocks
      ∧ P2.version = P.version
      ∧ P2.history = P1.history := by
  have h1 : updateBlocksHandler ps c d now
      = (savePage ps d.pageId
          { P with
              history := capHistory (P.history ++
                [{ version := P.version, blocks := P.blocks,
                   updatedAt := now, updatedBy := c.userId,
                   changeDescription :=
                     d.changeType ++ " block" ++ blockSuffix d.blockId }]),
              blocks := d.blocks, version := P.version + 1 },
         [⟨.toRoom d.pageId, "blocks-updated"⟩]) := by
    simp only [updateBlocksHandler, hfind, hacc, if_true]
  obtain ⟨k, hk, hcap⟩ := capHistory_append P.history
    { version := P.version, blocks := P.blocks, updatedAt := now,
      updatedBy := c.userId,
      changeDescription := d.changeType ++ " block" ++ blockSuffix d.blockId }
  have hex : ∃ e ∈ capHistory (P.history ++
      [{ version := P.version, blocks := P.blocks, updatedAt := now,
         updatedBy := c.userId,
         changeDescription :=
           d.changeType ++ " block" ++ blockSuffix d.blockId }]),
      e.version = P.version := by
    rw [hcap]
    exact ⟨_, List.mem_append_right _ (List.mem_singleton.mpr rfl), rfl⟩
  have hall : ∀ e ∈ capHistory (P.history ++
      [{ version := P.version, blocks := P.blocks, updatedAt := now,
         updatedBy := c.userId,
         changeDescription :=
           d.changeType ++ " block" ++ blockSuffix d.blockId }]),
      e.version = P.version → e.blocks = P.blocks := by
    rw [hcap]
    intro e he hv
    rcases List.mem_append.mp he with hmem | hmem
    · exact hinv e (List.mem_of_mem_drop hmem) hv
    · rw [List.mem_singleton.mp hmem]
  obtain ⟨e, hfe, heb, hev⟩ := find?_version_blocks _ _ _ hex hall
  have hfind1 : findPage (updateBlocksHandler ps c d now).1 d.pageId
      = some { P with
          history := capHistory (P.history ++
            [{ version := P.version, blocks := P.blocks,
               updatedAt := now, updatedBy := c.userId,
               changeDescription :=
                 d.changeType ++ " block" ++ blockSuffix d.blockId }]),
          blocks := d.blocks, version := P.version + 1 } := by
    rw [h1]
    exact findPage_savePage _ _ _ _ hfind
  have hfe' : (capHistory (P.history ++
      [{ version := P.version, blocks := P.blocks, updatedAt := now,
         updatedBy := c.userId,
         changeDescription :=
           d.changeType ++ " block" ++ blockSuffix d.blockId }])).find?
        (fun h => h.version == P.version + 1 - 1) = some e := by
    have harith : P.version + 1 - 1 = P.version := by omega
    rw [harith]
    exact hfe
  have hacc1 : hasAccess
      { P with
          history := capHistory (P.history ++
            [{ version := P.version, blocks := P.blocks,
               updatedAt := now, updatedBy := c.userId,
               changeDescription :=
                 d.changeType ++ " block" ++ blockSuffix d.blockId }]),
          blocks := d.blocks, version := P.version + 1 }
      c.userId .editor = true := hacc
  have h2 : undoRedoHandler (updateBlocksHandler ps c d now).1 c
      ⟨d.pageId, "undo", none⟩
      = (savePage (updateBlocksHandler ps c d now).1 d.pageId
          { P with
              history := capHistory (P.history ++
                [{ version := P.version, blocks := P.blocks,
                   updatedAt := now, updatedBy := c.userId,
                   changeDescription :=
                     d.changeType ++ " block" ++ blockSuffix d.blockId }]),
              blocks := e.blocks, version := P.version + 1 - 1 },
         [⟨.toRoom d.pageId, "history-navigated"⟩]) := by
    simp only [undoRedoHandler, hfind1, hacc1, if_true, computeTarget,
      beq_self_eq_true, hfe']
  refine ⟨{ P with
      history := capHistory (P.history ++
        [{ version := P.version, blocks := P.blocks,
           updatedAt := now, updatedBy := c.userId,
           changeDescription :=
             d.changeType ++ " block" ++ blockSuffix d.blockId }]),
      blocks := d.blocks, version := P.version + 1 },
    { P with
      history := capHistory (P.history ++
        [{ version := P.version, blocks := P.blocks,
           updatedAt := now, updatedBy := c.userId,
           changeDescription :=
             d.changeType ++ " block" ++ blockSuffix d.blockId }]),
      blocks := e.blocks, version := P.version + 1 - 1 },
    hfind1, ?_, heb, ?_, rfl⟩
  · rw [h2]
    exact findPage_savePage _ _ _ _ hfind1
  · show P.version + 1 - 1 = P.version
    omega

/-- Witness for the amended C3 at concrete inputs: mutate `tipPage`
(whose single history entry is at version 1, so `hinv` holds) then
undo. -/
theorem undo_after_updateBlocks_witness :
    ∃ P1 P2,
      findPage (updateBlocksHandler [("p", tipPage)] (ownerConn none)
          ⟨"p", [sampleBlock2], "replace", none⟩ 5).1 "p" = some P1
      ∧ findPage (undoRedoHandler
          (updateBlocksHandler [("p", tipPage)] (ownerConn none)
            ⟨"p", [sampleBlock2], "replace", none⟩ 5).1 (ownerConn none)
          ⟨"p", "undo", none⟩).1 "p" = some P2
      ∧ P2.blocks = tipPage.blocks
      ∧ P2.version = tipPage.version
      ∧ P2.history = P1.history :=
  undo_after_updateBlocks [("p", tipPage)] (ownerConn none)
    ⟨"p", [sampleBlock2], "replace", none⟩ 5 tipPage rfl rfl (by decide)

/-- C4 counterexample: from `tipPage` (version 2, only the version-1
snapshot recorded), `undo` restores the version-1 blocks `[]`; an
immediate `redo` computes target 2, which no history entry carries, so
it is a silent no-op — the pre-undo block set `[sampleBlock]` is not
restored. -/
theorem redo_after_undo_cex :
    (undoRedoHandler [("p", tipPage)] (ownerConn none)
        ⟨"p", "undo", none⟩).1
      = [("p", { tipPage with blocks := [], version := 1 })]
    ∧ undoRedoHandler [("p", { tipPage with blocks := [], version := 1 })]
        (ownerConn none) ⟨"p", "redo", none⟩
      = ([("p", { tipPage with blocks := [], version := 1 })], [])
    ∧ tipPage.blocks ≠ ([] : List Block) := by
  refine ⟨?_, ?_, ?_⟩ <;> decide

/-- C4 amended: redo immediately after an undo (no intervening mutation)
restores the pre-undo block set and version provided some retained
history entry records the pre-undo version and every such entry carries
the pre-undo block set (hypotheses `hex` and `hblk`; without the latter,
the first-match lookup can restore a stale snapshot recorded under a
reused version number). When no entry carries the pre-undo version — in
particular immediately after a single undo from the latest mutation's
unsnapshotted tip, the case of the counterexample — the redo is a silent
no-op instead. -/
theorem redo_after_undo_amended (ps : PageStore) (c : ConnState)
    (pid : String) (Q : Page)
    (hfind : findPage ps pid = some Q)
    (hacc : hasAccess Q c.userId .editor = true)
    (hprev : ∃ e ∈ Q.history, e.version = Q.version - 1)
    (hex : ∃ e ∈ Q.history, e.version = Q.version)
    (hblk : ∀ e ∈ Q.history, e.version = Q.version → e.blocks = Q.blocks) :
    ∃ P1 P2,
      findPage (undoRedoHandler ps c ⟨pid, "undo", none⟩).1 pid = some P1
      ∧ P1.version = Q.version - 1
      ∧ findPage (undoRedoHandler
          (undoRedoHandler ps c ⟨pid, "undo", none⟩).1 c
          ⟨pid, "redo", none⟩).1 pid = some P2
      ∧ P2.blocks = Q.blocks
      ∧ P2.version = Q.version := by
  have hsome1 : (Q.history.find? (fun h => h.version == Q.version - 1)).isSome := by
    rw [List.find?_isSome]
    obtain ⟨e, he, hv⟩ := hprev
    exact ⟨e, he, by simpa using hv⟩
  obtain ⟨e1, he1⟩ := Option.isSome_iff_exists.mp hsome1
  have h1 : undoRedoHandler ps c ⟨pid, "undo", none⟩
      = (savePage ps pid
          { Q with blocks := e1.blocks, version := Q.version - 1 },
         [⟨.toRoom pid, "history-navigated"⟩]) := by
    simp only [undoRedoHandler, hfind, hacc, if_true, computeTarget,
      beq_self_eq_true, he1]
  have hfind1 : findPage (undoRedoHandler ps c ⟨pid, "undo", none⟩).1 pid
      = some { Q with blocks := e1.blocks, version := Q.version - 1 } := by
    rw [h1]
    exact findPage_savePage _ _ _ _ hfind
  have hacc1 : hasAccess
      { Q with blocks := e1.blocks, version := Q.version - 1 }
      c.userId .editor = true := hacc
  obtain ⟨e2, hfe2, heb2, hev2⟩ :=
    find?_version_blocks Q.history Q.version Q.blocks hex hblk
  have hfe2' : Q.history.find?
      (fun h => h.version == Q.version - 1 + 1) = some e2 := by
    have harith : Q.version - 1 + 1 = Q.version := by omega
    rw [harith]
    exact hfe2
  have hne : (("redo" : String) == "undo") = false := by decide
  have hfind1' : findPage (savePage ps pid
      { Q with blocks := e1.blocks, version := Q.version - 1 }) pid
      = some { Q with blocks := e1.blocks, version := Q.version - 1 } :=
    findPage_savePage _ _ _ _ hfind
  have h2 : undoRedoHandler (savePage ps pid
      { Q with blocks := e1.blocks, version := Q.version - 1 }) c
      ⟨pid, "redo", none⟩
      = (savePage (savePage ps pid
          { Q with blocks := e1.blocks, version := Q.version - 1 }) pid
          { Q with blocks := e2.blocks, version := Q.version - 1 + 1 },
         [⟨.toRoom pid, "history-navigated"⟩]) := by
    simp only [undoRedoHandler, hfind1', hacc1, if_true, computeTarget, hne,
      Bool.false_eq_true, if_false, beq_self_eq_true, hfe2']
  refine ⟨{ Q with blocks := e1.blocks, version := Q.version - 1 },
    { Q with blocks := e2.blocks, version := Q.version - 1 + 1 },
    hfind1, rfl, ?_, heb2, ?_⟩
  · rw [h1]
    show findPage (undoRedoHandler (savePage ps pid
      { Q with blocks := e1.blocks, version := Q.version - 1 }) c
      ⟨pid, "redo", none⟩).1 pid = _
    rw [h2]
    exact findPage_savePage _ _ _ _ hfind1'
  · show Q.version - 1 + 1 = Q.version
    omega

/-- Witness for the amended C4 on `undoMidPage`, whose history records
both the version below and the current version. -/
theorem redo_after_undo_amended_witness :
    ∃ P1 P2,
      findPage (undoRedoHandler [("p", undoMidPage)] (ownerConn none)
          ⟨"p", "undo", none⟩).1 "p" = some P1
      ∧ P1.version = undoMidPage.version - 1
      ∧ findPage (undoRedoHandler
          (undoRedoHandler [("p", undoMidPage)] (ownerConn none)
            ⟨"p", "undo", none⟩).1 (ownerConn none)
          ⟨"p", "redo", none⟩).1 "p" = some P2
      ∧ P2.blocks = undoMidPage.blocks
      ∧ P2.version = undoMidPage.version :=
  redo_after_undo_amended [("p", undoMidPage)] (ownerConn none) "p"
    undoMidPage rfl rfl (by decide) (by decide) (by decide)

/-! ## Registry lemmas -/

/-- In-place `Map.set` on a present key is found at that key. -/
theorem find?_map_set_self {α : Type} (m : List (String × α)) (k : String)
    (v : α) (hany : m.any (fun kv => kv.1 == k) = true) :
    List.find? (fun kv => kv.1 == k)
      (m.map (fun kv => if kv.1 == k then (k, v) else kv)) = some (k, v) := by
  induction m with
  | nil => simp at hany
  | cons kv tl ih =>
    by_cases hk : kv.1 = k
    · have hk' : (kv.1 == k) = true := by simpa using hk
      simp only [List.map_cons, hk', if_true, List.find?_cons,
        beq_self_eq_true]
    · have hk' : (kv.1 == k) = false := beq_eq_false_iff_ne.mpr hk
      simp only [List.any_cons, hk', Bool.false_or] at hany
      simp only [List.map_cons, hk', Bool.false_eq_true, if_false,
        List.find?_cons]
      exact ih hany

/-- Appending a fresh key is found at that key. -/
theorem find?_append_single_self {α : Type} (m : List (String × α))
    (k : String) (v : α) (hany : m.any (fun kv => kv.1 == k) = false) :
    List.find? (fun kv => kv.1 == k) (m ++ [(k, v)]) = some (k, v) := by
  have hnone : List.find? (fun kv => kv.1 == k) m = none := by
    rw [List.find?_eq_none]
    intro x hx
    have := List.any_eq_false.mp hany x hx
    simpa using this
  rw [List.find?_append, hnone]
  simp [List.find?_cons]

/-- `setAssoc` stores the written binding. -/
theorem find?_setAssoc_self {α : Type} (m : List (String × α)) (k : String)
    (v : α) :
    List.find? (fun kv => kv.1 == k) (setAssoc m k v) = some (k, v) := by
  unfold setAssoc
  split
  · exact find?_map_set_self m k v (by assumption)
  · rename_i h
    exact find?_append_single_self m k v (Bool.eq_false_iff.mpr h)

/-- The in-place `Map.set` leaves other keys' lookups unchanged. -/
theorem find?_map_set_other {α : Type} (m : List (String × α))
    (k k' : String) (v : α) (hne : ¬ k = k') :
    List.find? (fun kv => kv.1 == k')
      (m.map (fun kv => if kv.1 == k then (k, v) else kv))
      = List.find? (fun kv => kv.1 == k') m := by
  induction m with
  | nil => rfl
  | cons kv tl ih =>
    by_cases hk : kv.1 = k
    · have hk' : (kv.1 == k) = true := by simpa using hk
      have hkk' : ((k : String) == k') = false := beq_eq_false_iff_ne.mpr hne
      have hold : (kv.1 == k') = false := by rw [hk]; exact hkk'
      simp only [List.map_cons, hk', if_true, List.find?_cons, hkk', hold]
      exact ih
    · have hk' : (kv.1 == k) = false := beq_eq_false_iff_ne.mpr hk
      simp only [List.map_cons, hk', Bool.false_eq_true, if_false,
        List.find?_cons]
      cases hq : kv.1 == k' with
      | true => rfl
      | false => exact ih

/-- Appending a fresh key leaves other keys' lookups unchanged. -/
theorem find?_append_single_other {α : Type} (m : List (String × α))
    (k k' : String) (v : α) (hne : ¬ k = k') :
    List.find? (fun kv => kv.1 == k') (m ++ [(k, v)])
      = List.find? (fun kv => kv.1 == k') m := by
  rw [List.find?_append]
  cases hf : List.find? (fun kv => kv.1 == k') m with
  | some x => rfl
  | none =>
    have : ((k : String) == k') = false := beq_eq_false_iff_ne.mpr hne
    simp [List.find?_cons, this]

/-- `setAssoc` leaves other keys' lookups unchanged. -/
theorem find?_setAssoc_other {α : Type} (m : List (String × α))
    (k k' : String) (v : α) (hne : ¬ k = k') :
    List.find? (fun kv => kv.1 == k') (setAssoc m k v)
      = List.find? (fun kv => kv.1 == k') m := by
  unfold setAssoc
  split
  · exact find?_map_set_other m k k' v hne
  · exact find?_append_single_other m k k' v hne

/-- Deleting one key from an association list leaves other keys'
lookups unchanged. -/
theorem find?_filter_key_ne {α : Type} (m : List (String × α))
    (p q : String) (hne : ¬ p = q) :
    List.find? (fun kv => kv.1 == q) (m.filter (fun kv => !(kv.1 == p)))
      = List.find? (fun kv => kv.1 == q) m := by
  induction m with
  | nil => rfl
  | cons kv tl ih =>
    by_cases hk : kv.1 = p
    · have h1 : (kv.1 == p) = true := by simpa using hk
      have h2 : (kv.1 == q) = false := by
        rw [hk]
        exact beq_eq_false_iff_ne.mpr hne
      simp only [List.filter_cons, h1, Bool.not_true, Bool.false_eq_true,
        if_false, List.find?_cons, h2]
      exact ih
    · have h1 : (kv.1 == p) = false := beq_eq_false_iff_ne.mpr hk
      simp only [List.filter_cons, h1, Bool.not_false, if_true,
        List.find?_cons]
      cases hq : kv.1 == q with
      | true => rfl
      | false => exact ih

/-- After `removeUserFromPage(p, u)` the user `u` is not counted in
`p`'s presence list. -/
theorem memPres_removeUser_self (r : Registry) (p u : String) :
    memPres (removeUserFromPage r p u) p u = false := by
  unfold removeUserFromPage
  cases hf : regFind r p with
  | none =>
    unfold memPres
    rw [hf]
    rfl
  | some m =>
    show memPres (if (m.filter (fun kv => !(kv.1 == u))).length = 0
      then r.filter (fun kv => !(kv.1 == p))
      else setAssoc r p (m.filter (fun kv => !(kv.1 == u)))) p u = false
    by_cases hlen : (m.filter (fun kv => !(kv.1 == u))).length = 0
    · rw [if_pos hlen]
      unfold memPres regFind
      have hnone : List.find? (fun kv => kv.1 == p)
          (r.filter (fun kv => !(kv.1 == p))) = none := by
        rw [List.find?_eq_none]
        intro x hx
        have := List.of_mem_filter hx
        simpa using this
      rw [hnone]
      rfl
    · rw [if_neg hlen]
      unfold memPres regFind
      rw [find?_setAssoc_self]
      simp only [Option.map_some', Option.getD_some]
      rw [List.any_eq_false]
      intro x hx
      have := List.of_mem_filter hx
      simpa using this

/-- `removeUserFromPage(p, u)` does not affect other pages' presence. -/
theorem memPres_removeUser_other (r : Registry) (p q u v : String)
    (hne : ¬ p = q) :
    memPres (removeUserFromPage r p u) q v = memPres r q v := by
  unfold removeUserFromPage
  cases hf : regFind r p with
  | none => rfl
  | some m =>
    show memPres (if (m.filter (fun kv => !(kv.1 == u))).length = 0
      then r.filter (fun kv => !(kv.1 == p))
      else setAssoc r p (m.filter (fun kv => !(kv.1 == u)))) q v
      = memPres r q v
    by_cases hlen : (m.filter (fun kv => !(kv.1 == u))).length = 0
    · rw [if_pos hlen]
      unfold memPres regFind
      rw [find?_filter_key_ne r p q hne]
    · rw [if_neg hlen]
      unfold memPres regFind
      rw [find?_setAssoc_other r p q _ hne]

/-- `addUserToPage(p, …)` does not affect other pages' presence. -/
theorem memPres_addUser_other (r : Registry) (p q uid v : String)
    (u : UserInfo) (now : Nat) (hne : ¬ p = q) :
    memPres (addUserToPage r p uid u now) q v = memPres r q v := by
  show memPres (setAssoc r p (setAssoc ((regFind r p).getD []) uid
    { uid := u.uid, name := u.name, avatar := u.avatar, joinedAt := now }))
    q v = memPres r q v
  unfold memPres regFind
  rw [find?_setAssoc_other r p q _ hne]

/-- C5 amended: when a connection bound to room A successfully joins a
different room B, the code sends **no** `user-left` notice to A — its only
emissions are `user-joined` to B's members and the `active-users` snapshot
to the joiner (departure notices exist only in the `disconnect` handler);
and at every intermediate step of the switch the connection is in at most
one room and is never counted in both rooms' presence lists at once. -/
theorem roomSwitch_amended (ps : PageStore) (regA : Registry)
    (A B uid : String) (u : UserInfo) (now : Nat) (pB : Page)
    (hfind : findPage ps B = some pB)
    (hacc : hasAccess pB uid .viewer = true)
    (hAB : ¬ A = B)
    (hnotB : memPres regA B uid = false) :
    joinPageHandler ps ⟨⟨uid, u, [A], some A⟩, regA⟩ B now
      = runScript ⟨⟨uid, u, [A], some A⟩, regA⟩
          (joinPageScript (some A) B uid u now)
    ∧ (runScript ⟨⟨uid, u, [A], some A⟩, regA⟩
        (joinPageScript (some A) B uid u now)).2
      = [⟨.toRoom B, "user-joined"⟩, ⟨.toSender, "active-users"⟩]
    ∧ (∀ e ∈ (runScript ⟨⟨uid, u, [A], some A⟩, regA⟩
        (joinPageScript (some A) B uid u now)).2, e.event ≠ "user-left")
    ∧ ∀ n,
        ((runScript ⟨⟨uid, u, [A], some A⟩, regA⟩
          ((joinPageScript (some A) B uid u now).take n)).1.conn.rooms.length
            ≤ 1
        ∧ ¬(memPres (runScript ⟨⟨uid, u, [A], some A⟩, regA⟩
              ((joinPageScript (some A) B uid u now).take n)).1.reg A uid
                = true
            ∧ memPres (runScript ⟨⟨uid, u, [A], some A⟩, regA⟩
              ((joinPageScript (some A) B uid u now).take n)).1.reg B uid
                = true)) := by
  have hBA : ¬ B = A := fun h => hAB h.symm
  refine ⟨?_, rfl, ?_, ?_⟩
  · simp only [joinPageHandler, hfind, hacc, if_true]
  · intro e he
    rw [show (runScript ⟨⟨uid, u, [A], some A⟩, regA⟩
        (joinPageScript (some A) B uid u now)).2
      = [⟨.toRoom B, "user-joined"⟩, ⟨.toSender, "active-users"⟩]
      from rfl] at he
    simp only [List.mem_cons, List.not_mem_nil, or_false] at he
    rcases he with rfl | rfl
    · simp
    · simp
  · intro n
    rcases n with _ | _ | _ | _ | _ | _ | _ | n
    · refine ⟨by simp [runScript], ?_⟩
      rintro ⟨h1, h2⟩
      rw [show (runScript ⟨⟨uid, u, [A], some A⟩, regA⟩
          ((joinPageScript (some A) B uid u now).take 0)).1.reg = regA
        from rfl] at h2
      rw [hnotB] at h2
      simp at h2
    · refine ⟨?_, ?_⟩
      · simp [joinPageScript, runScript, stepAct]
      · rintro ⟨h1, h2⟩
        rw [show (runScript ⟨⟨uid, u, [A], some A⟩, regA⟩
            ((joinPageScript (some A) B uid u now).take 1)).1.reg = regA
          from rfl] at h2
        rw [hnotB] at h2
        simp at h2
    · refine ⟨?_, ?_⟩
      · simp [joinPageScript, runScript, stepAct]
      · rintro ⟨h1, h2⟩
        rw [show (runScript ⟨⟨uid, u, [A], some A⟩, regA⟩
            ((joinPageScript (some A) B uid u now).take 2)).1.reg
          = removeUserFromPage regA A uid from rfl] at h1
        rw [memPres_removeUser_self] at h1
        simp at h1
    · refine ⟨?_, ?_⟩
      · simp [joinPageScript, runScript, stepAct]
      · rintro ⟨h1, h2⟩
        rw [show (runScript ⟨⟨uid, u, [A], some A⟩, regA⟩
            ((joinPageScript (some A) B uid u now).take 3)).1.reg
          = removeUserFromPage regA A uid from rfl] at h1
        rw [memPres_removeUser_self] at h1
        simp at h1
    · refine ⟨?_, ?_⟩
      · simp [joinPageScript, runScript, stepAct]
      · rintro ⟨h1, h2⟩
        rw [show (runScript ⟨⟨uid, u, [A], some A⟩, regA⟩
            ((joinPageScript (some A) B uid u now).take 4)).1.reg
          = removeUserFromPage regA A uid from rfl] at h1
        rw [memPres_removeUser_self] at h1
        simp at h1
    · refine ⟨?_, ?_⟩
      · simp [joinPageScript, runScript, stepAct]
      · rintro ⟨h1, h2⟩
        rw [show (runScript ⟨⟨uid, u, [A], some A⟩, regA⟩
            ((joinPageScript (some A) B uid u now).take 5)).1.reg
          = addUserToPage (removeUserFromPage regA A uid) B uid u now
          from rfl] at h1
        rw [memPres_addUser_other _ _ _ _ _ _ _ hBA] at h1
        rw [memPres_removeUser_self] at h1
        simp at h1
    · refine ⟨?_, ?_⟩
      · simp [joinPageScript, runScript, stepAct]
      · rintro ⟨h1, h2⟩
        rw [show (runScript ⟨⟨uid, u, [A], some A⟩, regA⟩
            ((joinPageScript (some A) B uid u now).take 6)).1.reg
          = addUserToPage (removeUserFromPage regA A uid) B uid u now
          from rfl] at h1
        rw [memPres_addUser_other _ _ _ _ _ _ _ hBA] at h1
        rw [memPres_removeUser_self] at h1
        simp at h1
    · rw [List.take_of_length_le (by simp [joinPageScript])]
      refine ⟨?_, ?_⟩
      · simp [joinPageScript, runScript, stepAct]
      · rintro ⟨h1, h2⟩
        rw [show (runScript ⟨⟨uid, u, [A], some A⟩, regA⟩
            (joinPageScript (some A) B uid u now)).1.reg
          = addUserToPage (removeUserFromPage regA A uid) B uid u now
          from rfl] at h1
        rw [memPres_addUser_other _ _ _ _ _ _ _ hBA] at h1
        rw [memPres_removeUser_self] at h1
        simp at h1

/-- C5 counterexample: the concrete connection `switchState` is bound to
room `"A"` (with a presence entry there) and successfully joins `"B"` —
the final state is bound to `"B"` — yet the emissions are exactly
`user-joined` to B and `active-users` to the joiner: **no** `user-left`
notice is delivered to A's members, contrary to the claim. -/
theorem roomSwitch_no_userLeft_cex :
    (joinPageHandler [("B", samplePageOwned)] switchState "B" 1).2
      = [⟨.toRoom "B", "user-joined"⟩, ⟨.toSender, "active-users"⟩]
    ∧ (joinPageHandler [("B", samplePageOwned)] switchState "B"
        1).1.conn.currentPageId = some "B"
    ∧ ∀ e ∈ (joinPageHandler [("B", samplePageOwned)] switchState "B" 1).2,
        e.event ≠ "user-left" := by
  exact ⟨by decide, by decide, by decide⟩

/-- Witness for the amended C5 at the concrete switch from `"A"` to
`"B"`. -/
theorem roomSwitch_amended_witness :
    joinPageHandler [("B", samplePageOwned)] switchState "B" 1
      = runScript switchState
          (joinPageScript (some "A") "B" "u1" sampleUser1 1)
    ∧ (runScript switchState
        (joinPageScript (some "A") "B" "u1" sampleUser1 1)).2
      = [⟨.toRoom "B", "user-joined"⟩, ⟨.toSender, "active-users"⟩] := by
  have h := roomSwitch_amended [("B", samplePageOwned)] switchState.reg
    "A" "B" "u1" sampleUser1 1 samplePageOwned rfl rfl (by decide)
    (by decide)
  exact ⟨h.1, h.2.1⟩
